import Mathlib

/-!
Verification of `src/05-objects-tasks.js`.

The file shallowly embeds the JavaScript source: the `CssSelectorBase`
class becomes a Lean structure with explicit state passing (the JS `this`
is threaded through every method), exceptions become `Option Err` results
paired with the state the object holds after the call (JS exceptions leave
earlier field mutations in place), and the `cssSelectorBuilder` facade
becomes a namespace of functions that start from a fresh state.
-/

namespace ObjectsTasks

/-- The six fragment categories, in the canonical key order in which the
source declares them in `params` / `correctOrder` (the `class` method of
the source stores into the `params.className` key; one category type
serves both objects since they are keyed separately here). -/
inductive Cat : Type
  | element
  | id
  | className
  | attr
  | pseudoClass
  | pseudoElement
deriving DecidableEq, Fintype

/-- Position of a category in the canonical order, i.e. the key insertion
order of the source's `correctOrder` object. -/
def catIdx : Cat → Nat
  | .element => 0
  | .id => 1
  | .className => 2
  | .attr => 3
  | .pseudoClass => 4
  | .pseudoElement => 5

/-- The canonical key list of `correctOrder` in source order. -/
def allCats : List Cat :=
  [.element, .id, .className, .attr, .pseudoClass, .pseudoElement]

/-- The two errors the source throws: the duplicate-occurrence error of
`checkForOccurance` and the ordering error of `checkForOrder`. -/
inductive Err : Type
  | occurrence
  | order
deriving DecidableEq, Fintype

/-- State of a `CssSelectorBase` instance: the `params` fragment lists,
the `selectorString` accumulator and the `correctOrder` flags. -/
structure CssSelectorBase where
  params : Cat → List String
  selectorString : String
  correctOrder : Cat → Bool

/-- The constructor of the source class: empty fragment lists, empty
selector string, all order flags false. -/
def CssSelectorBase.new : CssSelectorBase :=
  { params := fun _ => []
    selectorString := ""
    correctOrder := fun _ => false }

namespace CssSelectorBase

/-- `this.correctOrder[c] = true`. -/
def setFlag (s : CssSelectorBase) (c : Cat) : CssSelectorBase :=
  { s with correctOrder := fun d => if d = c then true else s.correctOrder d }

/-- `this.params[c].push(v)`. -/
def pushParam (s : CssSelectorBase) (c : Cat) (v : String) : CssSelectorBase :=
  { s with params := fun d => if d = c then s.params d ++ [v] else s.params d }

/-- Whether some category strictly after `c` in the canonical order has
its `correctOrder` flag set: the throw condition scanned by the
`forEach` walk of `checkForOrder`. -/
def laterTouched (s : CssSelectorBase) (c : Cat) : Bool :=
  allCats.any fun d => decide (catIdx c < catIdx d) && s.correctOrder d

/-- `checkForOccurance`: throws when the fragment list of the category is
non-empty (`if (this.params[paramName].length) throw ...`). -/
def checkForOccurance (s : CssSelectorBase) (c : Cat) : Option Err :=
  if s.params c ≠ [] then some Err.occurrence else none

/-- `checkForOrder`: the `forEach` walk sets `correctOrder[c] = true` when
it reaches `c`, then throws if any flag later in the key order is already
set.  The flag assignment happens before the possible throw, so the
post-call state carries it in both outcomes. -/
def checkForOrder (s : CssSelectorBase) (c : Cat) : Option Err × CssSelectorBase :=
  if laterTouched s c then (some Err.order, setFlag s c) else (none, setFlag s c)

/-- The `element` method: occurrence check first, then order check, then
push. -/
def element (s : CssSelectorBase) (v : String) : Option Err × CssSelectorBase :=
  match checkForOccurance s Cat.element with
  | some e => (some e, s)
  | none =>
    match checkForOrder s Cat.element with
    | (some e, s1) => (some e, s1)
    | (none, s1) => (none, pushParam s1 Cat.element v)

/-- The `id` method: occurrence check first, then order check, then push. -/
def id (s : CssSelectorBase) (v : String) : Option Err × CssSelectorBase :=
  match checkForOccurance s Cat.id with
  | some e => (some e, s)
  | none =>
    match checkForOrder s Cat.id with
    | (some e, s1) => (some e, s1)
    | (none, s1) => (none, pushParam s1 Cat.id v)

/-- The `class` method of the source (`class` is a keyword in Lean):
order check only, pushes onto `params.className`. -/
def classOp (s : CssSelectorBase) (v : String) : Option Err × CssSelectorBase :=
  match checkForOrder s Cat.className with
  | (some e, s1) => (some e, s1)
  | (none, s1) => (none, pushParam s1 Cat.className v)

/-- The `attr` method: order check only. -/
def attr (s : CssSelectorBase) (v : String) : Option Err × CssSelectorBase :=
  match checkForOrder s Cat.attr with
  | (some e, s1) => (some e, s1)
  | (none, s1) => (none, pushParam s1 Cat.attr v)

/-- The `pseudoClass` method: order check only. -/
def pseudoClass (s : CssSelectorBase) (v : String) : Option Err × CssSelectorBase :=
  match checkForOrder s Cat.pseudoClass with
  | (some e, s1) => (some e, s1)
  | (none, s1) => (none, pushParam s1 Cat.pseudoClass v)

/-- The `pseudoElement` method: in the source the order check runs
before the occurrence check, so a duplicate call still carries the flag
assignment of `checkForOrder` in its post-call state. -/
def pseudoElement (s : CssSelectorBase) (v : String) : Option Err × CssSelectorBase :=
  match checkForOrder s Cat.pseudoElement with
  | (some e, s1) => (some e, s1)
  | (none, s1) =>
    match checkForOccurance s1 Cat.pseudoElement with
    | some e => (some e, s1)
    | none => (none, pushParam s1 Cat.pseudoElement v)

/-- `addElementToSelectorString(param, pre, separator, post)`: appends
`pre + param.join(separator) + post` to `this.selectorString` when the
fragment list is non-empty, otherwise leaves the state alone. -/
def addElementToSelectorString (s : CssSelectorBase) (param : List String)
    (a b c : String) : CssSelectorBase :=
  if param ≠ [] then
    { s with selectorString := s.selectorString ++ (a ++ String.intercalate b param ++ c) }
  else s

/-- `stringify()`: appends the rendering of each category, in canonical
order, to `this.selectorString`, and returns the accumulated string.
Note the source mutates `this` and returns the accumulator, so the
result is a pair of the returned string and the post-call state. -/
def stringify (s0 : CssSelectorBase) : String × CssSelectorBase :=
  let s1 := addElementToSelectorString s0 (s0.params Cat.element) "" "" ""
  let s2 := addElementToSelectorString s1 (s1.params Cat.id) "#" "#" ""
  let s3 := addElementToSelectorString s2 (s2.params Cat.className) "." "." ""
  let s4 := addElementToSelectorString s3 (s3.params Cat.attr) "[" "][" "]"
  let s5 := addElementToSelectorString s4 (s4.params Cat.pseudoClass) ":" ":" ""
  let s6 := addElementToSelectorString s5 (s5.params Cat.pseudoElement) "::" "::" ""
  (s6.selectorString, s6)

/-- `combine(selector1, combinator, selector2)`: calls `stringify()` on
both operands (mutating them, since `stringify` mutates) and overwrites
the receiver's `selectorString`.  Returns the receiver followed by the
two operands in their post-call states. -/
def combine (s : CssSelectorBase) (selector1 : CssSelectorBase) (combinator : String)
    (selector2 : CssSelectorBase) :
    CssSelectorBase × CssSelectorBase × CssSelectorBase :=
  let r1 := stringify selector1
  let r2 := stringify selector2
  ({ s with selectorString := r1.1 ++ " " ++ combinator ++ " " ++ r2.1 }, r1.2, r2.2)

end CssSelectorBase

/-- Dispatch an `add` of a fragment of category `c` to the matching
method of the class. -/
def addOp : Cat → CssSelectorBase → String → Option Err × CssSelectorBase
  | .element => CssSelectorBase.element
  | .id => CssSelectorBase.id
  | .className => CssSelectorBase.classOp
  | .attr => CssSelectorBase.attr
  | .pseudoClass => CssSelectorBase.pseudoClass
  | .pseudoElement => CssSelectorBase.pseudoElement

namespace cssSelectorBuilder

/-- Facade `element`: `new CssSelectorBase().element(value)`. -/
def element (v : String) : Option Err × CssSelectorBase :=
  CssSelectorBase.element CssSelectorBase.new v

/-- Facade `id`. -/
def id (v : String) : Option Err × CssSelectorBase :=
  CssSelectorBase.id CssSelectorBase.new v

/-- Facade `class`. -/
def classOp (v : String) : Option Err × CssSelectorBase :=
  CssSelectorBase.classOp CssSelectorBase.new v

/-- Facade `attr`. -/
def attr (v : String) : Option Err × CssSelectorBase :=
  CssSelectorBase.attr CssSelectorBase.new v

/-- Facade `pseudoClass`. -/
def pseudoClass (v : String) : Option Err × CssSelectorBase :=
  CssSelectorBase.pseudoClass CssSelectorBase.new v

/-- Facade `pseudoElement`. -/
def pseudoElement (v : String) : Option Err × CssSelectorBase :=
  CssSelectorBase.pseudoElement CssSelectorBase.new v

/-- Facade `combine`: `new CssSelectorBase().combine(s1, c, s2)`. -/
def combine (selector1 : CssSelectorBase) (combinator : String)
    (selector2 : CssSelectorBase) :
    CssSelectorBase × CssSelectorBase × CssSelectorBase :=
  CssSelectorBase.combine CssSelectorBase.new selector1 combinator selector2

/-- Facade `stringify`: returns the empty string. -/
def stringify : String := ""

end cssSelectorBuilder

/-- An observable operation on one builder: adding a fragment or calling
`stringify` (which mutates the accumulator). -/
inductive Op : Type
  | add (c : Cat) (v : String)
  | stringifyOp

/-- One operation on a builder state: the error it throws, if any, and the
state the object is left in. -/
def stepOp : Op → CssSelectorBase → Option Err × CssSelectorBase
  | .add c v, s => addOp c s v
  | .stringifyOp, s => (none, (CssSelectorBase.stringify s).2)

/-- Run a chain of operations, stopping at the first thrown error (a JS
exception aborts the chain); the final state is the one the object holds
at that point. -/
def runSeq : List Op → CssSelectorBase → Option Err × CssSelectorBase
  | [], s => (none, s)
  | o :: t, s =>
    match stepOp o s with
    | (some e, s1) => (some e, s1)
    | (none, s1) => runSeq t s1

/-- Observational equivalence of two builder states: equal fragment
lists, equal accumulated selector string, and order flags that agree up
to extra flags in the second state that are each dominated by a
strictly later flag already present in the first.  Such a dominated
extra flag can never change the outcome of an order check. -/
def ObsRel (s t : CssSelectorBase) : Prop :=
  (∀ d, s.params d = t.params d) ∧
  s.selectorString = t.selectorString ∧
  (∀ d, s.correctOrder d = true → t.correctOrder d = true) ∧
  (∀ d, t.correctOrder d = true →
    s.correctOrder d = true ∨ ∃ e, catIdx d < catIdx e ∧ s.correctOrder e = true)

/-- The object produced by the `Rectangle` constructor function: two data
fields; `getArea` below reads them at call time.  JS numbers are modelled
as integers. -/
structure RectangleObj where
  width : Int
  height : Int

/-- `function Rectangle(width, height)`. -/
def Rectangle (width height : Int) : RectangleObj :=
  { width := width, height := height }

/-- `this.getArea = () => this.width * this.height`: reads the current
field values when called. -/
def RectangleObj.getArea (r : RectangleObj) : Int :=
  r.width * r.height

/-- Field assignment `r.width = w`. -/
def RectangleObj.setWidth (r : RectangleObj) (w : Int) : RectangleObj :=
  { r with width := w }

/-- Field assignment `r.height = h`. -/
def RectangleObj.setHeight (r : RectangleObj) (h : Int) : RectangleObj :=
  { r with height := h }

/-- A JSON-representable JavaScript value.  Numbers are modelled as
integers (the values the claims exercise); objects are ordered key-value
lists, matching JS own-property insertion order. -/
inductive JValue : Type
  | null
  | bool (b : Bool)
  | num (n : Int)
  | str (s : String)
  | arr (xs : List JValue)
  | obj (fields : List (String × JValue))

/-- The double-quote character. -/
def quoteC : Char := Char.ofNat 34

/-- The opening-brace character. -/
def lbraceC : Char := Char.ofNat 123

/-- The closing-brace character. -/
def rbraceC : Char := Char.ofNat 125

/-- JSON string escaping of one character. -/
def escapeChar (c : Char) : String :=
  if c = quoteC then "\\" ++ String.singleton quoteC
  else if c = '\\' then "\\\\"
  else if c = '\n' then "\\n"
  else if c = '\t' then "\\t"
  else if c = '\r' then "\\r"
  else String.singleton c

/-- JSON string escaping of a character list. -/
def escapeStr : List Char → String
  | [] => ""
  | c :: rest => escapeChar c ++ escapeStr rest

/-- A JSON string literal: quoted and escaped. -/
def jString (s : String) : String :=
  String.singleton quoteC ++ escapeStr s.data ++ String.singleton quoteC

mutual

/-- Model of `JSON.stringify` on representable values. -/
def jStringify : JValue → String
  | .null => "null"
  | .bool true => "true"
  | .bool false => "false"
  | .num n => toString n
  | .str s => jString s
  | .arr xs => "[" ++ jStringifyItems xs ++ "]"
  | .obj fs => String.singleton lbraceC ++ jStringifyFields fs ++ String.singleton rbraceC

/-- Comma-separated renderings of array items. -/
def jStringifyItems : List JValue → String
  | [] => ""
  | [x] => jStringify x
  | x :: rest => jStringify x ++ "," ++ jStringifyItems rest

/-- Comma-separated `"key":value` renderings of object fields. -/
def jStringifyFields : List (String × JValue) → String
  | [] => ""
  | [(k, x)] => jString k ++ ":" ++ jStringify x
  | (k, x) :: rest => jString k ++ ":" ++ jStringify x ++ "," ++ jStringifyFields rest

end

/-- JS property assignment `target[key] = value` on an ordered own
property list: an existing key keeps its position and gets the new
value, a new key is appended. -/
def insertProp (tgt : List (String × JValue)) (kv : String × JValue) :
    List (String × JValue) :=
  if tgt.any fun p => decide (p.1 = kv.1) then
    tgt.map fun p => if p.1 = kv.1 then (p.1, kv.2) else p
  else tgt ++ [kv]

/-- Skip JSON whitespace. -/
def skipWs : List Char → List Char
  | [] => []
  | c :: rest =>
    if c = ' ' ∨ c = '\n' ∨ c = '\t' ∨ c = '\r' then skipWs rest else c :: rest

/-- Decode one escape character of a JSON string body. -/
def escDecode (e : Char) : Option Char :=
  if e = quoteC then some quoteC
  else if e = '\\' then some '\\'
  else if e = 'n' then some '\n'
  else if e = 't' then some '\t'
  else if e = 'r' then some '\r'
  else none

/-- Parse the body of a JSON string up to the closing quote. -/
def parseStr : List Char → Option (String × List Char)
  | [] => none
  | c :: rest =>
    if c = quoteC then some ("", rest)
    else if c = '\\' then
      match rest with
      | [] => none
      | e :: rest2 =>
        match escDecode e with
        | none => none
        | some ch =>
          match parseStr rest2 with
          | none => none
          | some p => some (String.singleton ch ++ p.1, p.2)
    else
      match parseStr rest with
      | none => none
      | some p => some (String.singleton c ++ p.1, p.2)

/-- Decimal digit list to a natural number. -/
def digitsToNat (ds : List Char) : Nat :=
  ds.foldl (fun a c => a * 10 + (c.toNat - 48)) 0

/-- Parse a JSON integer numeral. -/
def parseNum (cs : List Char) : Option (JValue × List Char) :=
  match cs with
  | '-' :: rest =>
    let p := rest.span fun c => c.isDigit
    if p.1 = [] then none else some (JValue.num (-(digitsToNat p.1 : Int)), p.2)
  | _ =>
    let p := cs.span fun c => c.isDigit
    if p.1 = [] then none else some (JValue.num (digitsToNat p.1 : Int), p.2)

mutual

/-- Parse one JSON value; `fuel` bounds the recursion depth. -/
def parseVal (fuel : Nat) (cs : List Char) : Option (JValue × List Char) :=
  match fuel with
  | 0 => none
  | f + 1 =>
    match skipWs cs with
    | [] => none
    | c :: rest =>
      if c = quoteC then
        match parseStr rest with
        | none => none
        | some p => some (JValue.str p.1, p.2)
      else if c = lbraceC then
        match skipWs rest with
        | [] => none
        | d :: rest2 =>
          if d = rbraceC then some (JValue.obj [], rest2)
          else parseFields f (d :: rest2) []
      else if c = '[' then
        match skipWs rest with
        | [] => none
        | d :: rest2 =>
          if d = ']' then some (JValue.arr [], rest2)
          else parseItems f (d :: rest2) []
      else if c = 'n' then
        match rest with
        | 'u' :: 'l' :: 'l' :: r => some (JValue.null, r)
        | _ => none
      else if c = 't' then
        match rest with
        | 'r' :: 'u' :: 'e' :: r => some (JValue.bool true, r)
        | _ => none
      else if c = 'f' then
        match rest with
        | 'a' :: 'l' :: 's' :: 'e' :: r => some (JValue.bool false, r)
        | _ => none
      else parseNum (c :: rest)

/-- Parse the remaining items of a non-empty JSON array. -/
def parseItems (fuel : Nat) (cs : List Char) (acc : List JValue) :
    Option (JValue × List Char) :=
  match fuel with
  | 0 => none
  | f + 1 =>
    match parseVal f cs with
    | none => none
    | some (v, rest) =>
      match skipWs rest with
      | ',' :: r => parseItems f r (acc ++ [v])
      | d :: r => if d = ']' then some (JValue.arr (acc ++ [v]), r) else none
      | [] => none

/-- Parse the remaining fields of a non-empty JSON object, collapsing
duplicate keys the way JS property assignment does. -/
def parseFields (fuel : Nat) (cs : List Char) (acc : List (String × JValue)) :
    Option (JValue × List Char) :=
  match fuel with
  | 0 => none
  | f + 1 =>
    match skipWs cs with
    | [] => none
    | c :: rest =>
      if c = quoteC then
        match parseStr rest with
        | none => none
        | some (k, r1) =>
          match skipWs r1 with
          | ':' :: r2 =>
            match parseVal f r2 with
            | none => none
            | some (v, r3) =>
              match skipWs r3 with
              | ',' :: r4 => parseFields f r4 (insertProp acc (k, v))
              | d :: r4 =>
                if d = rbraceC then some (JValue.obj (insertProp acc (k, v)), r4)
                else none
              | [] => none
          | _ => none
      else none

end

/-- Model of `JSON.parse`: `none` models the thrown parse error.  The
fuel is one more than the input length, which bounds the nesting depth
since every recursive step consumes at least one character. -/
def jParse (text : String) : Option JValue :=
  match parseVal (text.data.length + 1) text.data with
  | some (v, rest) => if skipWs rest = [] then some v else none
  | none => none

/-- `getJSON` from the source: `return JSON.stringify(obj);`. -/
def getJSON (obj : JValue) : String :=
  jStringify obj

/-- A JS object as `fromJSON` builds it: a behavioural prototype part
and an ordered list of own enumerable properties. -/
structure JsObject where
  proto : List (String × JValue)
  own : List (String × JValue)

/-- `Object.create(proto)`: fresh object with the given prototype and
no own properties. -/
def objectCreate (proto : List (String × JValue)) : JsObject :=
  { proto := proto, own := [] }

/-- The own enumerable properties of a JSON-parsed value, as
`Object.assign` enumerates them: object fields; array index keys;
string index keys mapping to one-character strings; none for the
primitives. -/
def ownPropsOf : JValue → List (String × JValue)
  | .obj fs => fs
  | .arr xs => xs.enum.map fun p => (Nat.repr p.1, p.2)
  | .str s => s.data.enum.map fun p => (Nat.repr p.1, JValue.str (String.singleton p.2))
  | _ => []

/-- `Object.assign(target, src)`: copies each own enumerable property of
`src` onto `target` in enumeration order. -/
def objectAssign (target : JsObject) (src : JValue) : JsObject :=
  { target with own := (ownPropsOf src).foldl insertProp target.own }

/-- `fromJSON(proto, json)` from the source:
`Object.assign(Object.create(proto), JSON.parse(json))`; a parse error
propagates. -/
def fromJSON (proto : List (String × JValue)) (json : String) : Option JsObject :=
  match jParse json with
  | none => none
  | some w => some (objectAssign (objectCreate proto) w)

/-- Spec-side rendering of one category (the table of section 4.1 of the
spec): nothing for an empty fragment list, otherwise the prefix, the
fragments joined with the separator, and the suffix. -/
def partStr (p : List String) (pre sep suf : String) : String :=
  if p = [] then "" else pre ++ String.intercalate sep p ++ suf

/-- Spec-side prefix of each category. -/
def catPre : Cat → String
  | .element => ""
  | .id => "#"
  | .className => "."
  | .attr => "["
  | .pseudoClass => ":"
  | .pseudoElement => "::"

/-- Spec-side join separator of each category. -/
def catSep : Cat → String
  | .element => ""
  | .id => "#"
  | .className => "."
  | .attr => "]["
  | .pseudoClass => ":"
  | .pseudoElement => "::"

/-- Spec-side suffix of each category. -/
def catSuf : Cat → String
  | .attr => "]"
  | _ => ""

/-- Spec-side rendering: the concatenation, in the fixed category order,
of each category's `partStr`, empty categories contributing nothing. -/
def specConcat (m : Cat → List String) : String :=
  partStr (m .element) (catPre .element) (catSep .element) (catSuf .element) ++
  partStr (m .id) (catPre .id) (catSep .id) (catSuf .id) ++
  partStr (m .className) (catPre .className) (catSep .className) (catSuf .className) ++
  partStr (m .attr) (catPre .attr) (catSep .attr) (catSuf .attr) ++
  partStr (m .pseudoClass) (catPre .pseudoClass) (catSep .pseudoClass) (catSuf .pseudoClass) ++
  partStr (m .pseudoElement) (catPre .pseudoElement) (catSep .pseudoElement) (catSuf .pseudoElement)

/-- The fragments of category `c` in an addition sequence, in insertion
order. -/
def specFragments (l : List (Cat × String)) (c : Cat) : List String :=
  (l.filter fun p => p.1 = c).map Prod.snd

theorem mem_allCats (c : Cat) : c ∈ allCats := by
  cases c <;> simp [allCats]

theorem laterTouched_iff {s : CssSelectorBase} {c : Cat} :
    CssSelectorBase.laterTouched s c = true ↔
      ∃ d, catIdx c < catIdx d ∧ s.correctOrder d = true := by
  unfold CssSelectorBase.laterTouched
  rw [List.any_eq_true]
  constructor
  · rintro ⟨d, -, hd⟩
    rw [Bool.and_eq_true, decide_eq_true_eq] at hd
    exact ⟨d, hd.1, hd.2⟩
  · rintro ⟨d, h1, h2⟩
    refine ⟨d, mem_allCats d, ?_⟩
    rw [Bool.and_eq_true, decide_eq_true_eq]
    exact ⟨h1, h2⟩

theorem laterTouched_false_of {s : CssSelectorBase} {c : Cat}
    (h : ∀ d, s.correctOrder d = true → catIdx d ≤ catIdx c) :
    CssSelectorBase.laterTouched s c = false := by
  cases hb : CssSelectorBase.laterTouched s c
  · rfl
  · obtain ⟨d, hlt, hd⟩ := laterTouched_iff.mp hb
    have := h d hd
    omega

theorem laterTouched_pe (s : CssSelectorBase) :
    CssSelectorBase.laterTouched s Cat.pseudoElement = false := by
  apply laterTouched_false_of
  intro d _
  cases d <;> simp [catIdx]

theorem laterTouched_eq_false_iff {s : CssSelectorBase} {c : Cat} :
    CssSelectorBase.laterTouched s c = false ↔
      ∀ d, s.correctOrder d = true → catIdx d ≤ catIdx c := by
  constructor
  · intro hb d hd
    by_contra hle
    have ht : CssSelectorBase.laterTouched s c = true :=
      laterTouched_iff.mpr ⟨d, by omega, hd⟩
    simp [ht] at hb
  · exact laterTouched_false_of

theorem addOp_success (c : Cat) (s : CssSelectorBase) (v : String)
    (hocc : (c = Cat.element ∨ c = Cat.id ∨ c = Cat.pseudoElement) → s.params c = [])
    (hord : CssSelectorBase.laterTouched s c = false) :
    addOp c s v = (none, CssSelectorBase.pushParam (CssSelectorBase.setFlag s c) c v) := by
  cases c with
  | element =>
    have h0 := hocc (Or.inl rfl)
    simp [addOp, CssSelectorBase.element, CssSelectorBase.checkForOccurance,
      CssSelectorBase.checkForOrder, h0, hord]
  | id =>
    have h0 := hocc (Or.inr (Or.inl rfl))
    simp [addOp, CssSelectorBase.id, CssSelectorBase.checkForOccurance,
      CssSelectorBase.checkForOrder, h0, hord]
  | className =>
    simp [addOp, CssSelectorBase.classOp, CssSelectorBase.checkForOrder, hord]
  | attr =>
    simp [addOp, CssSelectorBase.attr, CssSelectorBase.checkForOrder, hord]
  | pseudoClass =>
    simp [addOp, CssSelectorBase.pseudoClass, CssSelectorBase.checkForOrder, hord]
  | pseudoElement =>
    have h0 := hocc (Or.inr (Or.inr rfl))
    simp [addOp, CssSelectorBase.pseudoElement, CssSelectorBase.checkForOrder,
      CssSelectorBase.checkForOccurance, CssSelectorBase.setFlag, h0, hord]

theorem addOp_dup (c : Cat) (s : CssSelectorBase) (v : String)
    (hc : c = Cat.element ∨ c = Cat.id) (h : s.params c ≠ []) :
    addOp c s v = (some Err.occurrence, s) := by
  rcases hc with rfl | rfl <;>
    simp [addOp, CssSelectorBase.element, CssSelectorBase.id,
      CssSelectorBase.checkForOccurance, h]

theorem addOp_pe_dup (s : CssSelectorBase) (v : String)
    (h : s.params Cat.pseudoElement ≠ []) :
    addOp Cat.pseudoElement s v =
      (some Err.occurrence, CssSelectorBase.setFlag s Cat.pseudoElement) := by
  simp [addOp, CssSelectorBase.pseudoElement, CssSelectorBase.checkForOrder,
    laterTouched_pe, CssSelectorBase.checkForOccurance, CssSelectorBase.setFlag, h]

theorem addOp_order (c : Cat) (s : CssSelectorBase) (v : String)
    (hord : CssSelectorBase.laterTouched s c = true)
    (hnd : (c = Cat.element ∨ c = Cat.id) → s.params c = []) :
    addOp c s v = (some Err.order, CssSelectorBase.setFlag s c) := by
  cases c with
  | element =>
    have h0 : s.params Cat.element = [] := hnd (Or.inl rfl)
    simp [addOp, CssSelectorBase.element, CssSelectorBase.checkForOccurance,
      CssSelectorBase.checkForOrder, h0, hord]
  | id =>
    have h0 : s.params Cat.id = [] := hnd (Or.inr rfl)
    simp [addOp, CssSelectorBase.id, CssSelectorBase.checkForOccurance,
      CssSelectorBase.checkForOrder, h0, hord]
  | className =>
    simp [addOp, CssSelectorBase.classOp, CssSelectorBase.checkForOrder, hord]
  | attr =>
    simp [addOp, CssSelectorBase.attr, CssSelectorBase.checkForOrder, hord]
  | pseudoClass =>
    simp [addOp, CssSelectorBase.pseudoClass, CssSelectorBase.checkForOrder, hord]
  | pseudoElement =>
    rw [laterTouched_pe] at hord
    exact absurd hord (by simp)

theorem addESS_params (s : CssSelectorBase) (p : List String) (a b c : String) :
    (CssSelectorBase.addElementToSelectorString s p a b c).params = s.params := by
  unfold CssSelectorBase.addElementToSelectorString
  split <;> rfl

theorem addESS_correctOrder (s : CssSelectorBase) (p : List String) (a b c : String) :
    (CssSelectorBase.addElementToSelectorString s p a b c).correctOrder = s.correctOrder := by
  unfold CssSelectorBase.addElementToSelectorString
  split <;> rfl

theorem addESS_selectorString (s : CssSelectorBase) (p : List String) (a b c : String) :
    (CssSelectorBase.addElementToSelectorString s p a b c).selectorString =
      s.selectorString ++ partStr p a b c := by
  unfold CssSelectorBase.addElementToSelectorString partStr
  by_cases h : p = []
  · simp [h, String.append_empty]
  · simp [h]

theorem stringify_fst (s : CssSelectorBase) :
    (CssSelectorBase.stringify s).1 = s.selectorString ++ specConcat s.params := by
  unfold CssSelectorBase.stringify specConcat
  simp [addESS_selectorString, addESS_params, catPre, catSep, catSuf, String.append_assoc]

theorem stringify_snd_params (s : CssSelectorBase) :
    ((CssSelectorBase.stringify s).2).params = s.params := by
  unfold CssSelectorBase.stringify
  simp [addESS_params]

theorem stringify_snd_correctOrder (s : CssSelectorBase) :
    ((CssSelectorBase.stringify s).2).correctOrder = s.correctOrder := by
  unfold CssSelectorBase.stringify
  simp [addESS_correctOrder]

theorem stringify_snd_selectorString (s : CssSelectorBase) :
    ((CssSelectorBase.stringify s).2).selectorString = (CssSelectorBase.stringify s).1 := rfl

theorem runAdds_incr (l : List (Cat × String)) : ∀ (s : CssSelectorBase),
    (∀ d, s.correctOrder d = true → ∀ p ∈ l, catIdx d ≤ catIdx p.1) →
    (∀ p ∈ l, s.params p.1 = []) →
    l.Pairwise (fun p q => catIdx p.1 < catIdx q.1) →
    (runSeq (l.map fun p => Op.add p.1 p.2) s).1 = none ∧
    (∀ d, ((runSeq (l.map fun p => Op.add p.1 p.2) s).2).params d
        = s.params d ++ specFragments l d) ∧
    ((runSeq (l.map fun p => Op.add p.1 p.2) s).2).selectorString = s.selectorString := by
  induction l with
  | nil =>
    intro s _ _ _
    refine ⟨rfl, fun d => ?_, rfl⟩
    simp [runSeq, specFragments]
  | cons hd tl ih =>
    intro s hflag hemp hpair
    obtain ⟨c, v⟩ := hd
    rw [List.pairwise_cons] at hpair
    have hstep : addOp c s v =
        (none, CssSelectorBase.pushParam (CssSelectorBase.setFlag s c) c v) := by
      apply addOp_success
      · exact fun _ => hemp (c, v) (List.mem_cons_self _ _)
      · exact laterTouched_false_of fun d hd2 => hflag d hd2 (c, v) (List.mem_cons_self _ _)
    set s2 := CssSelectorBase.pushParam (CssSelectorBase.setFlag s c) c v with hs2
    have hrun : runSeq (((c, v) :: tl).map fun p => Op.add p.1 p.2) s
        = runSeq (tl.map fun p => Op.add p.1 p.2) s2 := by
      simp [runSeq, stepOp, hstep]
    have hflag2 : ∀ d, s2.correctOrder d = true → ∀ p ∈ tl, catIdx d ≤ catIdx p.1 := by
      intro d hd2 p hp
      have hlt := hpair.1 p hp
      rw [hs2] at hd2
      simp [CssSelectorBase.pushParam, CssSelectorBase.setFlag] at hd2
      rcases hd2 with rfl | hd2
      · exact Nat.le_of_lt hlt
      · exact hflag d hd2 p (List.mem_cons_of_mem _ hp)
    have hemp2 : ∀ p ∈ tl, s2.params p.1 = [] := by
      intro p hp
      have hlt := hpair.1 p hp
      have hne : p.1 ≠ c := by
        intro heq
        rw [heq] at hlt
        exact Nat.lt_irrefl _ hlt
      rw [hs2]
      simp [CssSelectorBase.pushParam, CssSelectorBase.setFlag, hne]
      exact hemp p (List.mem_cons_of_mem _ hp)
    obtain ⟨ih1, ih2, ih3⟩ := ih s2 hflag2 hemp2 hpair.2
    refine ⟨by rw [hrun]; exact ih1, fun d => ?_, by rw [hrun]; exact ih3⟩
    rw [hrun, ih2 d, hs2]
    by_cases hdc : d = c
    · subst hdc
      simp [CssSelectorBase.pushParam, CssSelectorBase.setFlag, specFragments,
        List.filter_cons]
    · simp [CssSelectorBase.pushParam, CssSelectorBase.setFlag, hdc, specFragments,
        List.filter_cons, Ne.symm hdc]

/-- C2: any sequence of fragment additions on a fresh builder whose
categories are strictly increasing in the canonical order raises no
error, and `stringify()` returns the concatenation, in the fixed
category order, of each non-empty category's fragments joined with its
separator and wrapped with its prefix/suffix, empty categories
contributing nothing. -/
theorem increasing_adds_render (l : List (Cat × String))
    (hpair : l.Pairwise fun p q => catIdx p.1 < catIdx q.1) :
    (runSeq (l.map fun p => Op.add p.1 p.2) CssSelectorBase.new).1 = none ∧
    (CssSelectorBase.stringify
        (runSeq (l.map fun p => Op.add p.1 p.2) CssSelectorBase.new).2).1
      = specConcat (specFragments l) := by
  obtain ⟨h1, h2, h3⟩ := runAdds_incr l CssSelectorBase.new
    (by intro d hd; simp [CssSelectorBase.new] at hd)
    (by intro p _; rfl) hpair
  refine ⟨h1, ?_⟩
  rw [stringify_fst, h3]
  have hp : ((runSeq (l.map fun p => Op.add p.1 p.2) CssSelectorBase.new).2).params
      = specFragments l := funext fun d => by
    rw [h2 d]
    rfl
  rw [hp]
  exact String.empty_append _

/-- C2 witness: `element('a').attr('href$=".png"').pseudoClass('focus')`
is strictly increasing in category order and stringifies to
`'a[href$=".png"]:focus'`. -/
theorem increasing_adds_render_witness :
    ([(Cat.element, "a"), (Cat.attr, "href$=\".png\""), (Cat.pseudoClass, "focus")].Pairwise
      fun p q => catIdx p.1 < catIdx q.1) ∧
    (CssSelectorBase.stringify
        (runSeq ([(Cat.element, "a"), (Cat.attr, "href$=\".png\""),
          (Cat.pseudoClass, "focus")].map fun p => Op.add p.1 p.2)
          CssSelectorBase.new).2).1 = "a[href$=\".png\"]:focus" := by
  refine ⟨by decide, ?_⟩
  have h := increasing_adds_render
    [(Cat.element, "a"), (Cat.attr, "href$=\".png\""), (Cat.pseudoClass, "focus")]
    (by decide)
  rw [h.2]
  rfl

/-- C3 counterexample: on the builder built by `element('a').id('b')`
the category `id`, strictly later than `element`, is already touched,
yet adding `element` again raises the duplicate-occurrence error, not
the order error, because `element` checks for a duplicate first. -/
theorem order_error_shadowed :
    CssSelectorBase.laterTouched
      (runSeq [Op.add Cat.element "a", Op.add Cat.id "b"] CssSelectorBase.new).2
      Cat.element = true ∧
    (addOp Cat.element
      (runSeq [Op.add Cat.element "a", Op.add Cat.id "b"] CssSelectorBase.new).2 "c").1
      = some Err.occurrence ∧
    Err.occurrence ≠ Err.order := by
  refine ⟨by decide, by decide, by decide⟩

/-- C3 (amended): adding a fragment of category `c` raises the order
error exactly when some category strictly later in the canonical order
has already been touched AND the call is not already rejected by the
duplicate check (for `element` and `id` the duplicate error takes
precedence); in particular, class-after-attribute raises the order
error, and element-after-id (with no element present) raises it too. -/
theorem order_error_characterization :
    (∀ (s : CssSelectorBase) (c : Cat) (v : String),
      (addOp c s v).1 = some Err.order ↔
        ((∃ d, catIdx c < catIdx d ∧ s.correctOrder d = true) ∧
          ¬((c = Cat.element ∨ c = Cat.id) ∧ s.params c ≠ []))) ∧
    (addOp Cat.className
      (runSeq [Op.add Cat.attr "x"] CssSelectorBase.new).2 "c").1 = some Err.order ∧
    (addOp Cat.element
      (runSeq [Op.add Cat.id "i"] CssSelectorBase.new).2 "e").1 = some Err.order := by
  refine ⟨?_, by decide, by decide⟩
  intro s c v
  by_cases hA : (c = Cat.element ∨ c = Cat.id) ∧ s.params c ≠ []
  · rw [addOp_dup c s v hA.1 hA.2]
    simp [hA]
  · have hnd : (c = Cat.element ∨ c = Cat.id) → s.params c = [] := by
      intro hc
      by_contra hne
      exact hA ⟨hc, hne⟩
    by_cases hB : CssSelectorBase.laterTouched s c = true
    · rw [addOp_order c s v hB hnd]
      simp only [Option.some.injEq]
      constructor
      · intro _
        exact ⟨laterTouched_iff.mp hB, hA⟩
      · intro _
        trivial
    · have hB2 : CssSelectorBase.laterTouched s c = false := by simpa using hB
      have hnotex : ¬∃ d, catIdx c < catIdx d ∧ s.correctOrder d = true := by
        intro hex
        rw [laterTouched_iff.mpr hex] at hB2
        simp at hB2
      by_cases hC : c = Cat.pseudoElement ∧ s.params c ≠ []
      · obtain ⟨rfl, hne⟩ := hC
        rw [addOp_pe_dup s v hne]
        simp [hnotex]
      · have hocc : (c = Cat.element ∨ c = Cat.id ∨ c = Cat.pseudoElement) →
            s.params c = [] := by
          rintro (h | h | h)
          · exact hnd (Or.inl h)
          · exact hnd (Or.inr h)
          · subst h
            by_contra hne
            exact hC ⟨rfl, hne⟩
        rw [addOp_success c s v hocc hB2]
        simp [hnotex]

/-- Every outcome of an `add` call, described by what happens to one
queried fragment list: either it is untouched, or the call succeeded on
exactly that category and appended the value, with the categories that
carry an occurrence check starting from an empty list. -/
theorem addOp_params_desc (a : Cat) (s : CssSelectorBase) (v : String) (q : Cat) :
    ((addOp a s v).2).params q = s.params q ∨
    (q = a ∧ ((addOp a s v).2).params q = s.params q ++ [v] ∧
      ((a = Cat.element ∨ a = Cat.id ∨ a = Cat.pseudoElement) → s.params q = [])) := by
  by_cases hA : (a = Cat.element ∨ a = Cat.id) ∧ s.params a ≠ []
  · rw [addOp_dup a s v hA.1 hA.2]
    exact Or.inl rfl
  · have hnd : (a = Cat.element ∨ a = Cat.id) → s.params a = [] := by
      intro hc
      by_contra hne
      exact hA ⟨hc, hne⟩
    by_cases hB : CssSelectorBase.laterTouched s a = true
    · rw [addOp_order a s v hB hnd]
      exact Or.inl rfl
    · have hB2 : CssSelectorBase.laterTouched s a = false := by simpa using hB
      by_cases hC : a = Cat.pseudoElement ∧ s.params a ≠ []
      · obtain ⟨rfl, hne⟩ := hC
        rw [addOp_pe_dup s v hne]
        exact Or.inl rfl
      · have hocc : (a = Cat.element ∨ a = Cat.id ∨ a = Cat.pseudoElement) →
            s.params a = [] := by
          rintro (h | h | h)
          · exact hnd (Or.inl h)
          · exact hnd (Or.inr h)
          · subst h
            by_contra hne
            exact hC ⟨rfl, hne⟩
        rw [addOp_success a s v hocc hB2]
        by_cases hqa : q = a
        · subst hqa
          refine Or.inr ⟨rfl, ?_, hocc⟩
          simp [CssSelectorBase.pushParam, CssSelectorBase.setFlag]
        · refine Or.inl ?_
          simp [CssSelectorBase.pushParam, CssSelectorBase.setFlag, hqa]

theorem stepOp_preserves_le_one (o : Op) (s : CssSelectorBase)
    (h : ∀ c, (c = Cat.element ∨ c = Cat.id ∨ c = Cat.pseudoElement) →
      (s.params c).length ≤ 1) :
    ∀ c, (c = Cat.element ∨ c = Cat.id ∨ c = Cat.pseudoElement) →
      (((stepOp o s).2).params c).length ≤ 1 := by
  intro c hc
  cases o with
  | stringifyOp =>
    simp only [stepOp, stringify_snd_params]
    exact h c hc
  | add d v =>
    rcases addOp_params_desc d s v c with heq | ⟨rfl, heq, hocc⟩
    · simp only [stepOp, heq]
      exact h c hc
    · simp only [stepOp, heq, hocc hc]
      simp

theorem runSeq_params_le_one (l : List Op) : ∀ (s : CssSelectorBase),
    (∀ c, (c = Cat.element ∨ c = Cat.id ∨ c = Cat.pseudoElement) →
      (s.params c).length ≤ 1) →
    ∀ c, (c = Cat.element ∨ c = Cat.id ∨ c = Cat.pseudoElement) →
      (((runSeq l s).2).params c).length ≤ 1 := by
  induction l with
  | nil => exact fun s h => h
  | cons o t ih =>
    intro s h c hc
    have hstep := stepOp_preserves_le_one o s h
    rw [runSeq]
    cases hso : stepOp o s with
    | mk e s1 =>
      cases e with
      | some e0 =>
        simp only
        have := hstep c hc
        rw [hso] at this
        exact this
      | none =>
        simp only
        refine ih s1 ?_ c hc
        intro c2 hc2
        have := hstep c2 hc2
        rw [hso] at this
        exact this

/-- C4: adding `element` to a builder that already holds an element
fragment raises the duplicate-occurrence error, and likewise for `id`
and `pseudoElement`; consequently on every builder reachable from a
fresh one those three fragment lists hold at most one entry at every
point of its lifetime. -/
theorem duplicate_rejected_and_at_most_one :
    ∀ (s : CssSelectorBase) (v : String) (c : Cat),
      c ∈ ([Cat.element, Cat.id, Cat.pseudoElement] : List Cat) →
      s.params c ≠ [] →
      (addOp c s v).1 = some Err.occurrence ∧
      ∀ l : List Op, (((runSeq l CssSelectorBase.new).2).params c).length ≤ 1 := by
  intro s v c hc hne
  have hc2 : c = Cat.element ∨ c = Cat.id ∨ c = Cat.pseudoElement := by
    simpa using hc
  constructor
  · rcases hc2 with rfl | rfl | rfl
    · rw [addOp_dup _ s v (Or.inl rfl) hne]
    · rw [addOp_dup _ s v (Or.inr rfl) hne]
    · rw [addOp_pe_dup s v hne]
  · intro l
    refine runSeq_params_le_one l CssSelectorBase.new ?_ c hc2
    intro c2 _
    simp [CssSelectorBase.new]

/-- C4 witness: a builder holding element `'a'` rejects a second
`element('b')` with the duplicate-occurrence error, and the element
list stays at length at most one along every operation sequence. -/
theorem duplicate_rejected_and_at_most_one_witness :
    (Cat.element ∈ ([Cat.element, Cat.id, Cat.pseudoElement] : List Cat)) ∧
    ((runSeq [Op.add Cat.element "a"] CssSelectorBase.new).2.params Cat.element ≠ []) ∧
    ((addOp Cat.element
        (runSeq [Op.add Cat.element "a"] CssSelectorBase.new).2 "b").1
      = some Err.occurrence ∧
    ∀ l : List Op,
      (((runSeq l CssSelectorBase.new).2).params Cat.element).length ≤ 1) := by
  refine ⟨by decide, by decide, ?_⟩
  exact duplicate_rejected_and_at_most_one
    (runSeq [Op.add Cat.element "a"] CssSelectorBase.new).2 "b" Cat.element
    (by decide) (by decide)

/-- C5: for already-built selectors `A` and `B` and a combinator from
`' '`, `'+'`, `'~'`, `'>'`, the result of `cssSelectorBuilder.combine`
stringifies to the rendered form of `A`, a space, the combinator, a
space, and the rendered form of `B`. -/
theorem combine_renders_operands (A B : CssSelectorBase) (comb : String)
    (_hc : comb ∈ ([" ", "+", "~", ">"] : List String)) :
    (CssSelectorBase.stringify (cssSelectorBuilder.combine A comb B).1).1 =
      (CssSelectorBase.stringify A).1 ++ " " ++ comb ++ " " ++
        (CssSelectorBase.stringify B).1 := by
  unfold cssSelectorBuilder.combine CssSelectorBase.combine
  rw [stringify_fst]
  simp [CssSelectorBase.new, specConcat, partStr, String.append_empty,
    String.append_assoc]

/-- C5 witness: combining `div#main.container.draggable` and
`table#data` with `'+'` renders
`"div#main.container.draggable + table#data"`. -/
theorem combine_renders_operands_witness :
    ("+" ∈ ([" ", "+", "~", ">"] : List String)) ∧
    (CssSelectorBase.stringify
      (cssSelectorBuilder.combine
        (runSeq [Op.add Cat.element "div", Op.add Cat.id "main",
          Op.add Cat.className "container", Op.add Cat.className "draggable"]
          CssSelectorBase.new).2
        "+"
        (runSeq [Op.add Cat.element "table", Op.add Cat.id "data"]
          CssSelectorBase.new).2).1).1
      = "div#main.container.draggable + table#data" := by
  refine ⟨by decide, ?_⟩
  rw [combine_renders_operands _ _ _ (by decide)]
  rfl

theorem runAdds_same_cat (c : Cat)
    (hc : c = Cat.className ∨ c = Cat.attr ∨ c = Cat.pseudoClass)
    (vs : List String) : ∀ (s : CssSelectorBase),
    CssSelectorBase.laterTouched s c = false →
    (runSeq (vs.map fun v => Op.add c v) s).1 = none ∧
    (∀ d, ((runSeq (vs.map fun v => Op.add c v) s).2).params d
        = s.params d ++ (if d = c then vs else [])) ∧
    ((runSeq (vs.map fun v => Op.add c v) s).2).selectorString = s.selectorString := by
  induction vs with
  | nil =>
    intro s _
    exact ⟨rfl, fun d => by simp [runSeq], rfl⟩
  | cons v t ih =>
    intro s hord
    have hocc : (c = Cat.element ∨ c = Cat.id ∨ c = Cat.pseudoElement) →
        s.params c = [] := by
      intro h
      exfalso
      rcases hc with rfl | rfl | rfl <;> rcases h with h | h | h <;> simp at h
    have hstep := addOp_success c s v hocc hord
    set s2 := CssSelectorBase.pushParam (CssSelectorBase.setFlag s c) c v with hs2
    have hord2 : CssSelectorBase.laterTouched s2 c = false := by
      apply laterTouched_false_of
      intro d hd
      rw [hs2] at hd
      simp [CssSelectorBase.pushParam, CssSelectorBase.setFlag] at hd
      rcases hd with rfl | hd
      · exact Nat.le_refl _
      · exact laterTouched_eq_false_iff.mp hord d hd
    have hrun : runSeq ((v :: t).map fun w => Op.add c w) s
        = runSeq (t.map fun w => Op.add c w) s2 := by
      simp [runSeq, stepOp, hstep]
    obtain ⟨ih1, ih2, ih3⟩ := ih s2 hord2
    refine ⟨by rw [hrun]; exact ih1, fun d => ?_, ?_⟩
    · rw [hrun, ih2 d, hs2]
      by_cases hdc : d = c
      · subst hdc
        simp [CssSelectorBase.pushParam, CssSelectorBase.setFlag]
      · simp [CssSelectorBase.pushParam, CssSelectorBase.setFlag, hdc]
    · rw [hrun, ih3, hs2]
      rfl

/-- C7: the `class`, `attr` and `pseudoClass` operations accept
arbitrarily many additions without error as long as no later category
has been touched, appending each value in insertion order; a fresh
builder given only such additions stringifies them in insertion order,
joined by the category separator behind the category prefix. -/
theorem multi_add_insertion_order :
    ∀ c : Cat, c ∈ ([Cat.className, Cat.attr, Cat.pseudoClass] : List Cat) →
    (∀ (s : CssSelectorBase), CssSelectorBase.laterTouched s c = false →
      ∀ vs : List String,
        (runSeq (vs.map fun v => Op.add c v) s).1 = none ∧
        ((runSeq (vs.map fun v => Op.add c v) s).2).params c = s.params c ++ vs) ∧
    (∀ vs : List String, vs ≠ [] →
      (CssSelectorBase.stringify
          (runSeq (vs.map fun v => Op.add c v) CssSelectorBase.new).2).1
        = catPre c ++ String.intercalate (catSep c) vs ++ catSuf c) := by
  intro c hc
  have hc2 : c = Cat.className ∨ c = Cat.attr ∨ c = Cat.pseudoClass := by
    simpa using hc
  constructor
  · intro s hs vs
    obtain ⟨h1, h2, _⟩ := runAdds_same_cat c hc2 vs s hs
    refine ⟨h1, ?_⟩
    rw [h2 c]
    simp
  · intro vs hvs
    have hord : CssSelectorBase.laterTouched CssSelectorBase.new c = false :=
      laterTouched_false_of fun d hd => by simp [CssSelectorBase.new] at hd
    obtain ⟨_, h2, h3⟩ := runAdds_same_cat c hc2 vs CssSelectorBase.new hord
    rw [stringify_fst, h3]
    have hp : ((runSeq (vs.map fun v => Op.add c v) CssSelectorBase.new).2).params
        = fun d => if d = c then vs else [] := funext fun d => by
      rw [h2 d]
      rfl
    rw [hp]
    rcases hc2 with rfl | rfl | rfl <;>
      simp [specConcat, partStr, hvs, catPre, catSep, catSuf,
        String.append_empty, String.empty_append, String.append_assoc,
        CssSelectorBase.new]

/-- C7 witness: two class additions on a fresh builder succeed and
stringify to `.x.y`, the values in insertion order. -/
theorem multi_add_insertion_order_witness :
    (Cat.className ∈ ([Cat.className, Cat.attr, Cat.pseudoClass] : List Cat)) ∧
    ((["x", "y"] : List String) ≠ []) ∧
    (CssSelectorBase.stringify
        (runSeq ((["x", "y"] : List String).map fun v => Op.add Cat.className v)
          CssSelectorBase.new).2).1 = ".x.y" := by
  refine ⟨by decide, by decide, ?_⟩
  have h := (multi_add_insertion_order Cat.className (by decide)).2 ["x", "y"] (by decide)
  rw [h]
  rfl

/-- C10: `Rectangle(w, h)` exposes `width = w`, `height = h`, and
`getArea()` returns `width * height` computed at call time, so mutating a
field changes the value of a later `getArea()` call accordingly. -/
theorem rectangle_area_live : ∀ w h : Int,
    (Rectangle w h).width = w ∧ (Rectangle w h).height = h ∧
    (Rectangle w h).getArea = w * h ∧
    (∀ w2, ((Rectangle w h).setWidth w2).getArea = w2 * h) ∧
    (∀ h2, ((Rectangle w h).setHeight h2).getArea = w * h2) :=
  fun _ _ => ⟨rfl, rfl, rfl, fun _ => rfl, fun _ => rfl⟩

/-- C1: `stringify` is not idempotent: on the builder produced by
`cssSelectorBuilder.element('a')`, the first call returns `"a"` but the
second call returns `"aa"`, because each call appends the rendered
fragments to the stored `selectorString`. -/
theorem stringify_second_call_differs :
    (CssSelectorBase.stringify (cssSelectorBuilder.element "a").2).1 = "a" ∧
    (CssSelectorBase.stringify
      (CssSelectorBase.stringify (cssSelectorBuilder.element "a").2).2).1 = "aa" := by
  constructor <;> rfl

/-- C6: `combine` mutates its operands: operand `A` from
`cssSelectorBuilder.element('a')` stringifies to `"a"` before the call,
but after `cssSelectorBuilder.combine(A, '+', B)` the same operand
stringifies to `"aa"`, because `combine` invoked `A.stringify()` which
appended to `A`'s stored `selectorString`. -/
theorem combine_mutates_operand :
    (CssSelectorBase.stringify (cssSelectorBuilder.element "a").2).1 = "a" ∧
    (CssSelectorBase.stringify
      (cssSelectorBuilder.combine (cssSelectorBuilder.element "a").2 "+"
        (cssSelectorBuilder.element "b").2).2.1).1 = "aa" := by
  constructor <;> rfl

theorem specConcat_congr {m m2 : Cat → List String} (h : ∀ d, m d = m2 d) :
    specConcat m = specConcat m2 := by
  unfold specConcat
  rw [h, h, h, h, h, h]

theorem obsRel_refl (s : CssSelectorBase) : ObsRel s s :=
  ⟨fun _ => rfl, rfl, fun _ hd => hd, fun _ hd => Or.inl hd⟩

theorem obs_laterTouched {s t : CssSelectorBase} (h : ObsRel s t) (c : Cat) :
    CssSelectorBase.laterTouched s c = CssSelectorBase.laterTouched t c := by
  cases hs : CssSelectorBase.laterTouched s c with
  | true =>
    obtain ⟨d, hlt, hd⟩ := laterTouched_iff.mp hs
    exact (laterTouched_iff.mpr ⟨d, hlt, h.2.2.1 d hd⟩).symm
  | false =>
    cases ht : CssSelectorBase.laterTouched t c with
    | false => rfl
    | true =>
      exfalso
      obtain ⟨d, hlt, hd⟩ := laterTouched_iff.mp ht
      rcases h.2.2.2 d hd with hsd | ⟨e, hde, hse⟩
      · rw [laterTouched_iff.mpr ⟨d, hlt, hsd⟩] at hs
        simp at hs
      · rw [laterTouched_iff.mpr ⟨e, by omega, hse⟩] at hs
        simp at hs

theorem obsRel_setFlag {s t : CssSelectorBase} (h : ObsRel s t) (c : Cat) :
    ObsRel (CssSelectorBase.setFlag s c) (CssSelectorBase.setFlag t c) := by
  refine ⟨h.1, h.2.1, fun d hd => ?_, fun d hd => ?_⟩
  · simp only [CssSelectorBase.setFlag] at hd ⊢
    by_cases hdc : d = c
    · simp [hdc]
    · rw [if_neg hdc] at hd ⊢
      exact h.2.2.1 d hd
  · simp only [CssSelectorBase.setFlag] at hd ⊢
    by_cases hdc : d = c
    · left
      simp [hdc]
    · rw [if_neg hdc] at hd
      rcases h.2.2.2 d hd with hsd | ⟨e, hde, hse⟩
      · left
        rw [if_neg hdc]
        exact hsd
      · right
        refine ⟨e, hde, ?_⟩
        by_cases hec : e = c
        · simp [hec]
        · rw [if_neg hec]
          exact hse

theorem obsRel_pushParam {s t : CssSelectorBase} (h : ObsRel s t) (c : Cat) (v : String) :
    ObsRel (CssSelectorBase.pushParam s c v) (CssSelectorBase.pushParam t c v) := by
  refine ⟨fun d => ?_, h.2.1, h.2.2.1, h.2.2.2⟩
  simp only [CssSelectorBase.pushParam]
  rw [h.1 d]

theorem obs_step {s t : CssSelectorBase} (h : ObsRel s t) (o : Op) :
    (stepOp o s).1 = (stepOp o t).1 ∧ ObsRel (stepOp o s).2 (stepOp o t).2 := by
  cases o with
  | stringifyOp =>
    refine ⟨rfl, fun d => ?_, ?_, ?_, ?_⟩
    · simp only [stepOp, stringify_snd_params]
      exact h.1 d
    · simp only [stepOp, stringify_snd_selectorString, stringify_fst]
      rw [h.2.1, specConcat_congr h.1]
    · simp only [stepOp, stringify_snd_correctOrder]
      exact h.2.2.1
    · simp only [stepOp, stringify_snd_correctOrder]
      exact h.2.2.2
  | add c v =>
    simp only [stepOp]
    by_cases hA : (c = Cat.element ∨ c = Cat.id) ∧ s.params c ≠ []
    · have hAt : (c = Cat.element ∨ c = Cat.id) ∧ t.params c ≠ [] := by
        rw [← h.1 c]
        exact hA
      rw [addOp_dup c s v hA.1 hA.2, addOp_dup c t v hAt.1 hAt.2]
      exact ⟨rfl, h⟩
    · have hAt : ¬((c = Cat.element ∨ c = Cat.id) ∧ t.params c ≠ []) := by
        rw [← h.1 c]
        exact hA
      have hnd : (c = Cat.element ∨ c = Cat.id) → s.params c = [] := by
        intro hcc
        by_contra hne
        exact hA ⟨hcc, hne⟩
      have hndt : (c = Cat.element ∨ c = Cat.id) → t.params c = [] := by
        intro hcc
        by_contra hne
        exact hAt ⟨hcc, hne⟩
      by_cases hB : CssSelectorBase.laterTouched s c = true
      · have hBt : CssSelectorBase.laterTouched t c = true := by
          rw [← obs_laterTouched h c]
          exact hB
        rw [addOp_order c s v hB hnd, addOp_order c t v hBt hndt]
        exact ⟨rfl, obsRel_setFlag h c⟩
      · have hB2 : CssSelectorBase.laterTouched s c = false := by simpa using hB
        have hBt2 : CssSelectorBase.laterTouched t c = false := by
          rw [← obs_laterTouched h c]
          exact hB2
        by_cases hC : c = Cat.pseudoElement ∧ s.params c ≠ []
        · obtain ⟨rfl, hne⟩ := hC
          have hnet : t.params Cat.pseudoElement ≠ [] := by
            rw [← h.1 _]
            exact hne
          rw [addOp_pe_dup s v hne, addOp_pe_dup t v hnet]
          exact ⟨rfl, obsRel_setFlag h _⟩
        · have hocc : (c = Cat.element ∨ c = Cat.id ∨ c = Cat.pseudoElement) →
              s.params c = [] := by
            rintro (hcc | hcc | hcc)
            · exact hnd (Or.inl hcc)
            · exact hnd (Or.inr hcc)
            · subst hcc
              by_contra hne
              exact hC ⟨rfl, hne⟩
          have hocct : (c = Cat.element ∨ c = Cat.id ∨ c = Cat.pseudoElement) →
              t.params c = [] := by
            intro hcc
            rw [← h.1 c]
            exact hocc hcc
          rw [addOp_success c s v hocc hB2, addOp_success c t v hocct hBt2]
          exact ⟨rfl, obsRel_pushParam (obsRel_setFlag h c) c v⟩

theorem obs_runSeq (l : List Op) : ∀ {s t : CssSelectorBase}, ObsRel s t →
    (runSeq l s).1 = (runSeq l t).1 ∧ ObsRel (runSeq l s).2 (runSeq l t).2 := by
  induction l with
  | nil => exact fun h => ⟨rfl, h⟩
  | cons o rest ih =>
    intro s t h
    obtain ⟨he, hrel⟩ := obs_step h o
    rw [runSeq, runSeq]
    cases hso : stepOp o s with
    | mk es s1 =>
      cases hst : stepOp o t with
      | mk et t1 =>
        rw [hso, hst] at he hrel
        simp only at he hrel
        subst he
        cases es with
        | some e0 => exact ⟨rfl, hrel⟩
        | none => exact ih hrel

theorem addOp_error_rel {s : CssSelectorBase} {c : Cat} {v : String} {e : Err}
    (hinv : ∀ d, s.params d ≠ [] → s.correctOrder d = true)
    (herr : (addOp c s v).1 = some e) :
    ObsRel s ((addOp c s v).2) := by
  by_cases hA : (c = Cat.element ∨ c = Cat.id) ∧ s.params c ≠ []
  · rw [addOp_dup c s v hA.1 hA.2]
    exact obsRel_refl s
  · have hnd : (c = Cat.element ∨ c = Cat.id) → s.params c = [] := by
      intro hcc
      by_contra hne
      exact hA ⟨hcc, hne⟩
    by_cases hB : CssSelectorBase.laterTouched s c = true
    · rw [addOp_order c s v hB hnd]
      refine ⟨fun _ => rfl, rfl, fun d hd => ?_, fun d hd => ?_⟩
      · simp only [CssSelectorBase.setFlag]
        by_cases hdc : d = c
        · simp [hdc]
        · rw [if_neg hdc]
          exact hd
      · simp only [CssSelectorBase.setFlag] at hd
        by_cases hdc : d = c
        · subst hdc
          obtain ⟨e2, hlt, he2⟩ := laterTouched_iff.mp hB
          exact Or.inr ⟨e2, hlt, he2⟩
        · rw [if_neg hdc] at hd
          exact Or.inl hd
    · have hB2 : CssSelectorBase.laterTouched s c = false := by simpa using hB
      by_cases hC : c = Cat.pseudoElement ∧ s.params c ≠ []
      · obtain ⟨rfl, hne⟩ := hC
        have hflag : s.correctOrder Cat.pseudoElement = true := hinv _ hne
        rw [addOp_pe_dup s v hne]
        refine ⟨fun _ => rfl, rfl, fun d hd => ?_, fun d hd => ?_⟩
        · simp only [CssSelectorBase.setFlag]
          by_cases hdc : d = Cat.pseudoElement
          · simp [hdc]
          · rw [if_neg hdc]
            exact hd
        · simp only [CssSelectorBase.setFlag] at hd
          by_cases hdc : d = Cat.pseudoElement
          · subst hdc
            exact Or.inl hflag
          · rw [if_neg hdc] at hd
            exact Or.inl hd
      · have hocc : (c = Cat.element ∨ c = Cat.id ∨ c = Cat.pseudoElement) →
            s.params c = [] := by
          rintro (hcc | hcc | hcc)
          · exact hnd (Or.inl hcc)
          · exact hnd (Or.inr hcc)
          · subst hcc
            by_contra hne
            exact hC ⟨rfl, hne⟩
        rw [addOp_success c s v hocc hB2] at herr
        exact absurd herr (by simp)

theorem addOp_param_flag (c : Cat) (s : CssSelectorBase) (v : String)
    (h : ∀ d, s.params d ≠ [] → s.correctOrder d = true) :
    ∀ d, ((addOp c s v).2).params d ≠ [] → ((addOp c s v).2).correctOrder d = true := by
  by_cases hA : (c = Cat.element ∨ c = Cat.id) ∧ s.params c ≠ []
  · rw [addOp_dup c s v hA.1 hA.2]
    exact h
  · have hnd : (c = Cat.element ∨ c = Cat.id) → s.params c = [] := by
      intro hcc
      by_contra hne
      exact hA ⟨hcc, hne⟩
    by_cases hB : CssSelectorBase.laterTouched s c = true
    · rw [addOp_order c s v hB hnd]
      intro d hd
      simp only [CssSelectorBase.setFlag] at hd ⊢
      by_cases hdc : d = c
      · simp [hdc]
      · rw [if_neg hdc]
        exact h d hd
    · have hB2 : CssSelectorBase.laterTouched s c = false := by simpa using hB
      by_cases hC : c = Cat.pseudoElement ∧ s.params c ≠ []
      · obtain ⟨rfl, hne⟩ := hC
        rw [addOp_pe_dup s v hne]
        intro d hd
        simp only [CssSelectorBase.setFlag] at hd ⊢
        by_cases hdc : d = Cat.pseudoElement
        · simp [hdc]
        · rw [if_neg hdc]
          exact h d hd
      · have hocc : (c = Cat.element ∨ c = Cat.id ∨ c = Cat.pseudoElement) →
            s.params c = [] := by
          rintro (hcc | hcc | hcc)
          · exact hnd (Or.inl hcc)
          · exact hnd (Or.inr hcc)
          · subst hcc
            by_contra hne
            exact hC ⟨rfl, hne⟩
        rw [addOp_success c s v hocc hB2]
        intro d hd
        simp only [CssSelectorBase.pushParam, CssSelectorBase.setFlag] at hd ⊢
        by_cases hdc : d = c
        · simp [hdc]
        · rw [if_neg hdc] at hd ⊢
          exact h d hd

theorem stepOp_preserves_param_flag (o : Op) (s : CssSelectorBase)
    (h : ∀ d, s.params d ≠ [] → s.correctOrder d = true) :
    ∀ d, ((stepOp o s).2).params d ≠ [] → ((stepOp o s).2).correctOrder d = true := by
  cases o with
  | stringifyOp =>
    simp only [stepOp, stringify_snd_params, stringify_snd_correctOrder]
    exact h
  | add c v => exact addOp_param_flag c s v h

/-- Every builder reachable from a fresh one satisfies the hypothesis of
the atomicity theorem: a non-empty fragment list implies its order flag
is set. -/
theorem runSeq_param_flag (l : List Op) : ∀ (s : CssSelectorBase),
    (∀ d, s.params d ≠ [] → s.correctOrder d = true) →
    ∀ d, ((runSeq l s).2).params d ≠ [] → ((runSeq l s).2).correctOrder d = true := by
  induction l with
  | nil => exact fun s h => h
  | cons o t ih =>
    intro s h
    have hstep := stepOp_preserves_param_flag o s h
    rw [runSeq]
    cases hso : stepOp o s with
    | mk e s1 =>
      rw [hso] at hstep
      cases e with
      | some e0 => exact hstep
      | none => exact ih s1 hstep

/-- C8: a fragment-adding call that raises an error is observably
atomic: on every builder reachable from a fresh one (where a non-empty
fragment list implies its order flag is set), the failed call leaves
the string `stringify()` would return unchanged, and every subsequent
operation sequence has the same error outcome and the same final
rendering as if the failed call had never happened. -/
theorem failed_add_atomic (s : CssSelectorBase) (c : Cat) (v : String) (e : Err)
    (hinv : ∀ d, s.params d ≠ [] → s.correctOrder d = true)
    (herr : (addOp c s v).1 = some e) :
    (CssSelectorBase.stringify ((addOp c s v).2)).1 = (CssSelectorBase.stringify s).1 ∧
    ∀ l : List Op,
      (runSeq l ((addOp c s v).2)).1 = (runSeq l s).1 ∧
      (CssSelectorBase.stringify ((runSeq l ((addOp c s v).2)).2)).1 =
        (CssSelectorBase.stringify ((runSeq l s).2)).1 := by
  have hrel := addOp_error_rel hinv herr
  constructor
  · rw [stringify_fst, stringify_fst, hrel.2.1, specConcat_congr hrel.1]
  · intro l
    obtain ⟨h1, h2⟩ := obs_runSeq l hrel
    refine ⟨h1.symm, ?_⟩
    rw [stringify_fst, stringify_fst, h2.2.1, specConcat_congr h2.1]

/-- C8 witness: on the builder built by `attr('x')`, the failing call
`id('i')` (an order violation) is observably atomic. -/
theorem failed_add_atomic_witness :
    (∀ d, ((runSeq [Op.add Cat.attr "x"] CssSelectorBase.new).2).params d ≠ [] →
      ((runSeq [Op.add Cat.attr "x"] CssSelectorBase.new).2).correctOrder d = true) ∧
    ((addOp Cat.id (runSeq [Op.add Cat.attr "x"] CssSelectorBase.new).2 "i").1
      = some Err.order) ∧
    ((CssSelectorBase.stringify
        ((addOp Cat.id (runSeq [Op.add Cat.attr "x"] CssSelectorBase.new).2 "i").2)).1
      = (CssSelectorBase.stringify
          (runSeq [Op.add Cat.attr "x"] CssSelectorBase.new).2).1 ∧
    ∀ l : List Op,
      (runSeq l ((addOp Cat.id
          (runSeq [Op.add Cat.attr "x"] CssSelectorBase.new).2 "i").2)).1
        = (runSeq l (runSeq [Op.add Cat.attr "x"] CssSelectorBase.new).2).1 ∧
      (CssSelectorBase.stringify
          ((runSeq l ((addOp Cat.id
            (runSeq [Op.add Cat.attr "x"] CssSelectorBase.new).2 "i").2)).2)).1 =
        (CssSelectorBase.stringify
          ((runSeq l (runSeq [Op.add Cat.attr "x"] CssSelectorBase.new).2).2)).1) := by
  refine ⟨by decide, by decide, ?_⟩
  exact failed_add_atomic
    (runSeq [Op.add Cat.attr "x"] CssSelectorBase.new).2 Cat.id "i" Err.order
    (by decide) (by decide)

theorem foldl_insertProp_fresh (l : List (String × JValue)) : ∀ acc,
    (∀ kv ∈ l, ∀ kv2 ∈ acc, kv.1 ≠ kv2.1) →
    (l.map Prod.fst).Nodup →
    l.foldl insertProp acc = acc ++ l := by
  induction l with
  | nil =>
    intro acc _ _
    simp
  | cons kv t ih =>
    intro acc hfresh hnd
    rw [List.foldl_cons]
    have hany : (acc.any fun p => decide (p.1 = kv.1)) = false := by
      rw [List.any_eq_false]
      intro p hp
      simp only [decide_eq_true_eq]
      exact fun heq => hfresh kv (List.mem_cons_self _ _) p hp heq.symm
    have hins : insertProp acc kv = acc ++ [kv] := by
      unfold insertProp
      rw [hany]
      simp
    rw [hins]
    rw [List.map_cons, List.nodup_cons] at hnd
    have hfresh2 : ∀ kv2 ∈ t, ∀ kv3 ∈ acc ++ [kv], kv2.1 ≠ kv3.1 := by
      intro kv2 h2 kv3 h3
      rcases List.mem_append.mp h3 with h3 | h3
      · exact hfresh kv2 (List.mem_cons_of_mem _ h2) kv3 h3
      · have h4 : kv3 = kv := List.mem_singleton.mp h3
        subst h4
        intro heq
        refine hnd.1 ?_
        rw [← heq]
        exact List.mem_map_of_mem Prod.fst h2
    rw [ih (acc ++ [kv]) hfresh2 hnd.2, List.append_assoc]
    rfl

/-- C9: for every representable value `v` (one the format round-trips,
with distinct own-property keys) and every prototype `proto`,
`fromJSON proto (getJSON v)` yields an object whose own enumerable
properties are exactly those of `v`, carried on the given prototype. -/
theorem serialize_roundtrip_own_props (v : JValue) (proto : List (String × JValue))
    (hrt : jParse (getJSON v) = some v)
    (hnd : ((ownPropsOf v).map Prod.fst).Nodup) :
    fromJSON proto (getJSON v) = some { proto := proto, own := ownPropsOf v } := by
  unfold fromJSON
  rw [hrt]
  simp only [objectAssign, objectCreate]
  rw [foldl_insertProp_fresh (ownPropsOf v) [] (by intro kv _ kv2 h2; simp at h2) hnd]
  rfl

/-- C9 witness: the object `{"a": 1, "b": "x"}` round-trips through
`getJSON` and `fromJSON`, landing its own properties on the prototype
unchanged. -/
theorem serialize_roundtrip_own_props_witness :
    fromJSON [("p", JValue.null)]
        (getJSON (JValue.obj [("a", JValue.num 1), ("b", JValue.str "x")]))
      = some { proto := [("p", JValue.null)],
               own := [("a", JValue.num 1), ("b", JValue.str "x")] } :=
  serialize_roundtrip_own_props (JValue.obj [("a", JValue.num 1), ("b", JValue.str "x")])
    [("p", JValue.null)] (by rfl) (by decide)

end ObjectsTasks
